import Mathlib

/-!
Verification of the identifier-reconciliation and compliance-aggregation core
of `sys.py` (RFP/contract checklist review with pre-review cross-check).

The Python functions are shallowly embedded as executable Lean definitions:
strings are `String` (lists of unicode code points, as in Python), Python
`str.strip()` / `re` whitespace is modelled over the ASCII whitespace
characters, dictionaries become association lists with insertion-order
semantics, pandas dataframes become lists of records, and
`pandas.sort_values(kind=mergesort)` becomes a stable insertion sort by the
same key (any two stable sorts by the same total key agree extensionally).
`difflib.SequenceMatcher.ratio()` (standard library, called with the short id
strings of this program, far below the 200-element autojunk threshold) is
embedded by its matching-blocks algorithm with exact rational arithmetic in
place of floating point; for the denominators that occur here the float
comparisons of the source are exact, so `Nat` cross-multiplication is a
faithful model of the `>=`/`>` comparisons on ratios.
-/

/-! ## Python string primitives -/

/-- ASCII whitespace as recognised by Python `str.strip()` and `\s`. -/
def isPySpace (c : Char) : Bool :=
  c == ' ' || c == '\t' || c == '\n' || c == '\r' || c == '\x0b' || c == '\x0c'

/-- `str.strip()` on a list of characters. -/
def pyStripL (l : List Char) : List Char :=
  ((l.dropWhile isPySpace).reverse.dropWhile isPySpace).reverse

/-- Python `str.strip()`. -/
def pyStrip (s : String) : String := ⟨pyStripL s.data⟩

/-- Python `in` on strings: contiguous-substring test. -/
def isSubstrL (pat : List Char) (l : List Char) : Bool :=
  (List.range (l.length + 1)).any (fun i => (l.drop i).take pat.length == pat)

/-- Python `pat in s` for strings. -/
def isSubstr (pat s : String) : Bool := isSubstrL pat.data s.data

/-- Code-point lexicographic `<` on strings, as Python compares strings. -/
def strLtL : List Char → List Char → Bool
  | [], [] => false
  | [], _ :: _ => true
  | _ :: _, [] => false
  | a :: as, b :: bs => if a < b then true else if b < a then false else strLtL as bs

/-! ## Status Normalizer (`normalize_status_equiv`, sys.py lines 270-284) -/

/-- `re.sub(r"\s+", "", str(s)).lower()` — whitespace removal then lowercase. -/
def statusClean (s : String) : String :=
  ⟨(s.data.filter (fun c => !isPySpace c)).map Char.toLower⟩

/-- `normalize_status_equiv(s)` from sys.py: collapse a free-form precheck
status label to one of 符合 / 不適用 / 未提及.  `none` models Python `None`. -/
def normalize_status_equiv (s : Option String) : String :=
  match s with
  | none => "未提及"
  | some str =>
    let t := statusClean str
    if t = "" then "未提及"
    else if t = "符合" ∨ t = "ok" ∨ t = "pass" ∨ t = "通過" then "符合"
    else if t = "不適用" ∨ t = "na" ∨ t = "n/a" then "不適用"
    else "未提及"

/-! ## Identifier Canonicalizer (`compute_std_id`, sys.py lines 287-333) -/

/-- `SECTION_TO_LETTER` from sys.py (insertion order preserved). -/
def SECTION_TO_LETTER : List (String × Char) :=
  [("案件性質", 'A'), ("現況說明", 'B'), ("資安需求", 'C'),
   ("作業需求", 'D'), ("產品交付", 'E'), ("其他重點", 'F')]

/-- `ROMAN_TO_LETTER` from sys.py. -/
def ROMAN_TO_LETTER : List (String × Char) :=
  [("一", 'A'), ("二", 'B'), ("三", 'C'), ("四", 'D'), ("五", 'E'), ("六", 'F')]

/-- The optional `\.\d+$` part of the canonical pattern. -/
def stdFrac : List Char → Bool
  | '.' :: r2 => !r2.isEmpty && r2.all Char.isDigit
  | _ => false

/-- The `\d+(\.\d+)?$` part of the canonical pattern. -/
def stdTail (rest : List Char) : Bool :=
  !(rest.takeWhile Char.isDigit).isEmpty &&
    ((rest.dropWhile Char.isDigit).isEmpty || stdFrac (rest.dropWhile Char.isDigit))

/-- `^[A-F]\d+(\.\d+)?$` on a character list. -/
def stdIdMatchL : List Char → Bool
  | [] => false
  | c :: rest => ('A' ≤ c && c ≤ 'F') && stdTail rest

/-- `re.match(r"^[A-F]\d+(?:\.\d+)?$", s)` (the `STD_ID_PATTERN` of sys.py). -/
def stdIdMatch (s : String) : Bool := stdIdMatchL s.data

/-- `re.search(r"-\s*(\d+)", raw)`: first hyphen followed (after optional
whitespace) by a digit run; capture the run. -/
def findHyphenNum : List Char → Option (List Char)
  | [] => none
  | c :: rest =>
    if c == '-' then
      if ((rest.dropWhile isPySpace).takeWhile Char.isDigit).isEmpty then findHyphenNum rest
      else some ((rest.dropWhile isPySpace).takeWhile Char.isDigit)
    else findHyphenNum rest

/-- The delimiters `、 . ． )` of the fallback pattern `(\d+)\s*[、\.．)]`. -/
def isNumDelim (c : Char) : Bool :=
  c == '、' || c == '.' || c == '．' || c == ')'

/-- `re.search(r"(\d+)\s*[、\.．)]", src)`: leftmost maximal digit run that is
followed, after optional whitespace, by one of the delimiters; capture the run.
(A shorter suffix of a failing run can never match, since the character after
it is a digit, which is neither whitespace nor a delimiter — so skipping the
whole run is exactly the regex scan.)  Fuel-structured for executability. -/
def findNumDelimF : Nat → List Char → Option (List Char)
  | 0, _ => none
  | _, [] => none
  | fuel + 1, c :: rest =>
    if c.isDigit then
      match (rest.dropWhile Char.isDigit).dropWhile isPySpace with
      | d :: _ =>
        if isNumDelim d then some (c :: rest.takeWhile Char.isDigit)
        else findNumDelimF fuel (rest.dropWhile Char.isDigit)
      | [] => none
    else findNumDelimF fuel rest

/-- Entry point of the fallback main-number search. -/
def findNumDelim (l : List Char) : Option (List Char) := findNumDelimF l.length l

/-- `re.search(r"\((\d+)\)", src)`: leftmost `(`+digits+`)`; capture digits. -/
def findParenNum : List Char → Option (List Char)
  | [] => none
  | c :: rest =>
    if c == '(' then
      match rest.dropWhile Char.isDigit with
      | ')' :: _ =>
        if (rest.takeWhile Char.isDigit).isEmpty then findParenNum rest
        else some (rest.takeWhile Char.isDigit)
      | _ => findParenNum rest
    else findParenNum rest

/-- `src = f"{raw_id} {item}".strip()` in `compute_std_id`. -/
def srcOf (raw_id item : String) : String := pyStrip (raw_id ++ " " ++ item)

/-- The `sec_letter` inference of `compute_std_id`: first section title found
as a substring, else first ordinal marker (`X、` or `X `). -/
def secLetterOf (raw_id item : String) : Option Char :=
  match SECTION_TO_LETTER.find? (fun p => isSubstr p.1 (srcOf raw_id item)) with
  | some p => some p.2
  | none =>
    (ROMAN_TO_LETTER.find? (fun p =>
        isSubstr (p.1 ++ "、") (srcOf raw_id item) ||
        isSubstr (p.1 ++ " ") (srcOf raw_id item))).map (fun p => p.2)

/-- The `m_main` extraction of `compute_std_id`: prefer `-\s*(\d+)` in the raw
id, else the `(\d+)\s*[、\.．)]` fallback over the combined text. -/
def mainNumOf (raw_id item : String) : Option (List Char) :=
  match findHyphenNum raw_id.data with
  | some ds => some ds
  | none => findNumDelim (srcOf raw_id item).data

/-- `compute_std_id(raw_id, item)` from sys.py: canonicalize a free-form
precheck identifier to `LETTER DIGIT+ ('.' DIGIT+)?` (letter A..F), or `""`. -/
def compute_std_id (raw_id item : String) : String :=
  if stdIdMatch (pyStrip raw_id) then pyStrip raw_id
  else
    match secLetterOf raw_id item, mainNumOf raw_id item with
    | some L, some ds =>
      ⟨L :: (ds ++ (match findParenNum (srcOf raw_id item).data with
                    | some fs => '.' :: fs
                    | none => []))⟩
    | _, _ => ""

/-! ## Fuzzy Matcher: `difflib.SequenceMatcher.ratio` and `fuzzy_match`
(sys.py lines 415-421).  The ratio is `2*M/T` where `M` is the total size of
the matching blocks found by repeatedly taking the longest matching block
(ties: lowest index in `a`, then in `b`), and `T` the sum of the lengths.
Junk handling is omitted: `SequenceMatcher` is called with `autojunk` only
active for sequences of 200+ elements, far longer than any string compared
here.  Ratios are carried as exact `Nat` numerator/denominator pairs. -/

/-- Positions of `c` in `b`, ascending (difflib's `b2j`). -/
def b2jL (b : List Char) (c : Char) : List Nat :=
  (List.range b.length).filter (fun j => b.get? j == some c)

/-- State of the longest-matching-block scan. -/
structure FLM where
  j2len : List (Nat × Nat)
  besti : Nat
  bestj : Nat
  bestsize : Nat

/-- `j2len.get(j, 0)`. -/
def lookupJ2 (m : List (Nat × Nat)) (j : Nat) : Nat :=
  ((m.find? (fun p => p.1 == j)).map (fun p => p.2)).getD 0

/-- One row (`i`) of difflib's `find_longest_match` dynamic program. -/
def flmStep (a b : List Char) (blo bhi : Nat) (st : FLM) (i : Nat) : FLM :=
  let js := (b2jL b (a.getD i ' ')).filter (fun j => blo ≤ j && j < bhi)
  let init : FLM := { j2len := [], besti := st.besti, bestj := st.bestj, bestsize := st.bestsize }
  js.foldl (fun st2 j =>
    let k := (if j = 0 then 0 else lookupJ2 st.j2len (j - 1)) + 1
    let st3 : FLM := { st2 with j2len := (j, k) :: st2.j2len }
    if st3.bestsize < k then { st3 with besti := i + 1 - k, bestj := j + 1 - k, bestsize := k }
    else st3) init

/-- difflib `find_longest_match` (no junk): `(besti, bestj, bestsize)`. -/
def findLongestMatch (a b : List Char) (alo ahi blo bhi : Nat) : Nat × Nat × Nat :=
  let fin := (List.range' alo (ahi - alo)).foldl (flmStep a b blo bhi)
    { j2len := [], besti := alo, bestj := blo, bestsize := 0 }
  (fin.besti, fin.bestj, fin.bestsize)

/-- Total size of difflib's matching blocks; recursion expressed with fuel
(one unit per split; interval lengths shrink strictly, so `|a| + 1` units
always suffice). -/
def matchSizeAux (a b : List Char) : Nat → Nat → Nat → Nat → Nat → Nat
  | 0, _, _, _, _ => 0
  | fuel + 1, alo, ahi, blo, bhi =>
    let m := findLongestMatch a b alo ahi blo bhi
    if m.2.2 = 0 then 0
    else matchSizeAux a b fuel alo m.1 blo m.2.1 + m.2.2 +
         matchSizeAux a b fuel (m.1 + m.2.2) ahi (m.2.1 + m.2.2) bhi

/-- `M` = total matched characters between `a` and `b`. -/
def matchSize (a b : List Char) : Nat := matchSizeAux a b (a.length + 1) 0 a.length 0 b.length

/-- `SequenceMatcher(a=query, b=cand).ratio()` as an exact pair
`(numerator, denominator)`; total length zero gives ratio `1.0`. -/
def ratioPair (a b : String) : Nat × Nat :=
  let T := a.length + b.length
  if T = 0 then (1, 1) else (2 * matchSize a.data b.data, T)

/-- Exact model of the float comparison `r > best_ratio`. -/
def ratGtB (r best : Nat × Nat) : Bool := best.1 * r.2 < r.1 * best.2

/-- Exact model of the float comparison `r >= 0.85`. -/
def ratAccept (r : Nat × Nat) : Bool := 17 * r.2 ≤ 20 * r.1

/-- One step of the best-candidate scan of `fuzzy_match`. -/
def fuzzyStep (query : String) (best : String × Nat × Nat) (cand : String) :
    String × Nat × Nat :=
  let r := ratioPair query cand
  if ratGtB r best.2 then (cand, r) else best

/-- `fuzzy_match(best_of, query)` from sys.py: best candidate by similarity
ratio, ties to the first candidate; starts from `("", 0.0)`. -/
def fuzzy_match (bestOf : List String) (query : String) : String × Nat × Nat :=
  bestOf.foldl (fuzzyStep query) ("", 0, 1)

/-! ## Canonical ordering (sys.py lines 403-411 and 506-515)
Both `to_dataframe` and `build_compare_table` sort with the identical key:
主碼 = first character in `A..F` anywhere in 編號 (else rank 9),
子碼值 = first `\d+(\.\d+)?` substring read as a decimal number (else last),
final tiebreak the 編號 string itself; `kind=mergesort`, i.e. stable. -/

/-- 主序: rank 0-5 of the first `A..F` character of the id, else 9. -/
def letterRank (s : String) : Nat :=
  ((s.data.find? (fun c => 'A' ≤ c && c ≤ 'F')).map (fun c => c.toNat - 65)).getD 9

/-- First `\d+(\.\d+)?` in the id: integer digits and fraction digits. -/
def findFirstNumL : List Char → Option (List Char × List Char)
  | [] => none
  | c :: rest =>
    if c.isDigit then
      let ds := c :: rest.takeWhile Char.isDigit
      match rest.dropWhile Char.isDigit with
      | '.' :: r2 =>
        let fs := r2.takeWhile Char.isDigit
        if fs.isEmpty then some (ds, []) else some (ds, fs)
      | _ => some (ds, [])
    else findFirstNumL rest

/-- Digit run to its numeric value. -/
def natOfDigits (l : List Char) : Nat := l.foldl (fun n c => n * 10 + (c.toNat - 48)) 0

/-- 子碼值 as an exact scaled decimal `(mantissa, scale)`, value
`mantissa / 10^scale`; `none` when the id holds no number (pandas `NaN`). -/
def subVal (s : String) : Option (Nat × Nat) :=
  (findFirstNumL s.data).map (fun p => (natOfDigits (p.1 ++ p.2), p.2.length))

/-- `<` on scaled decimals. -/
def decValLt (a b : Nat × Nat) : Bool := a.1 * 10 ^ b.2 < b.1 * 10 ^ a.2

/-- `<` on optional 子碼值; `NaN` (`none`) sorts last, as in pandas. -/
def subLt : Option (Nat × Nat) → Option (Nat × Nat) → Bool
  | some a, some b => decValLt a b
  | some _, none => true
  | none, _ => false

/-- The full sort key comparison `(主序, 子碼值, 編號) ≤ (主序, 子碼值, 編號)`. -/
def sortKeyLe (x y : String) : Bool :=
  let rx := letterRank x
  let ry := letterRank y
  if rx < ry then true
  else if ry < rx then false
  else
    let sx := subVal x
    let sy := subVal y
    if subLt sx sy then true
    else if subLt sy sx then false
    else !(strLtL y.data x.data)

/-- Stable insertion: place `x` after every already-placed `y` with `le y x`. -/
def insertStable {α : Type} (le : α → α → Bool) (x : α) : List α → List α
  | [] => [x]
  | y :: ys => if le y x then y :: insertStable le x ys else x :: y :: ys

/-- Stable sort (elements inserted left to right); extensionally equal to
`pandas.sort_values(..., kind=mergesort)` for the same total key. -/
def stableSort {α : Type} (le : α → α → Bool) (l : List α) : List α :=
  l.foldl (fun acc x => insertStable le x acc) []

/-- The canonical A→F numeric-aware ordering applied by both `to_dataframe`
and `build_compare_table`, keyed on the 編號 projection of a row. -/
def sortByCanonical {α : Type} (hao : α → String) (l : List α) : List α :=
  stableSort (fun x y => sortKeyLe (hao x) (hao y)) l

/-! ## Data rows -/

/-- One evidence entry `{file, page, quote}`. -/
structure Ev where
  file : String
  page : Option Int
  quote : String
deriving DecidableEq, Repr

/-- A normalized system-side compliance record (elements of `all_results`). -/
structure CompRec where
  id : String
  category : String
  item : String
  compliance : String
  evidence : List Ev
  recommendation : String
deriving DecidableEq, Repr

/-- A row of the system dataframe produced by `to_dataframe`:
[類別, 編號, 檢核項目, 符合情形, 主要證據, 改善建議]. -/
structure SysRow where
  cat : String
  hao : String
  item : String
  compliance : String
  evidence : List Ev
  recommendation : String
deriving DecidableEq, Repr

/-- A row of the precheck dataframe produced by `precheck_rows_to_df`:
[編號, 檢核項目, 預審判定, 對應頁次/備註] plus the hidden columns
[_預審等價級_隱藏, _raw_id_隱藏, _section_隱藏]. -/
structure PreRow where
  hao : String
  item : String
  ori : String
  note : String
  eqLevel : String
  rawId : String
  sect : String
deriving DecidableEq, Repr

/-- A row of the comparison table produced by `build_compare_table`:
[類別, 編號, 檢核項目（系統基準）, 預審判定（原字）, 預審等價級,
系統檢核結果, 差異判定, 差異說明/建議, 對應頁次/備註]. -/
structure CmpRow where
  cat : String
  hao : String
  itemSys : String
  oriPre : String
  eqPre : String
  sysRes : String
  verdict : String
  explanation : String
  note : String
deriving DecidableEq, Repr

/-! ## `to_dataframe` (sys.py lines 390-412) -/

/-- `to_dataframe(results)`: dress records as rows and apply the canonical
sort.  (The source also renders an unused evidence text; the stored 主要證據
column is the raw evidence value, which the comparison never reads.) -/
def to_dataframe (results : List CompRec) : List SysRow :=
  sortByCanonical SysRow.hao (results.map (fun r =>
    { cat := r.category, hao := r.id, item := r.item, compliance := r.compliance,
      evidence := r.evidence, recommendation := r.recommendation }))

/-! ## `build_compare_table` (sys.py lines 423-516) -/

/-- Insert into a Python dict modelled as an assoc list: overwrite in place
if the key exists (keeping its position), else append. -/
def dictInsert (m : List (String × SysRow)) (k : String) (v : SysRow) :
    List (String × SysRow) :=
  if m.any (fun p => p.1 == k) then m.map (fun p => if p.1 == k then (k, v) else p)
  else m ++ [(k, v)]

/-- `sys_idx`: rows keyed by stripped nonempty 編號, insertion-ordered. -/
def sysIdx (sysDf : List SysRow) : List (String × SysRow) :=
  sysDf.foldl (fun m row =>
    let rid := pyStrip row.hao
    if rid = "" then m else dictInsert m rid row) []

/-- `list(sys_idx.keys())`. -/
def sysKeys (sysDf : List SysRow) : List String := (sysIdx sysDf).map (fun p => p.1)

/-- Dict lookup. -/
def idxLookup (m : List (String × SysRow)) (k : String) : Option SysRow :=
  (m.find? (fun p => p.1 == k)).map (fun p => p.2)

/-- The query handed to `fuzzy_match`: `pid or pitem` in the source. -/
def fuzzyQuery (pid pitem : String) : String := if pid = "" then pitem else pid

/-- Modelled from the spec: the query selection the specification describes
for the fuzzy fallback — "canonical id if present, else raw_id, else
item_text".  Stated only to compare against the source's `fuzzyQuery`. -/
def fuzzyQuerySpec (canonicalId rawId itemText : String) : String :=
  if canonicalId ≠ "" then canonicalId
  else if rawId ≠ "" then rawId
  else itemText

/-- The forward-sweep match for one precheck row: exact lookup of the
stripped 編號, else fuzzy match accepted at ratio `>= 0.85`.  Returns the
matched id and system row, or `none`. -/
def matchOf (sysDf : List SysRow) (prow : PreRow) : Option (String × SysRow) :=
  match (if pyStrip prow.hao = "" then none
         else idxLookup (sysIdx sysDf) (pyStrip prow.hao)) with
  | some m => some (pyStrip prow.hao, m)
  | none =>
    if ratAccept (fuzzy_match (sysKeys sysDf)
        (fuzzyQuery (pyStrip prow.hao) prow.item)).2 then
      (idxLookup (sysIdx sysDf)
          (fuzzy_match (sysKeys sysDf) (fuzzyQuery (pyStrip prow.hao) prow.item)).1).map
        (fun m => ((fuzzy_match (sysKeys sysDf)
            (fuzzyQuery (pyStrip prow.hao) prow.item)).1, m))
    else none

/-- The 差異判定 on a matched pair: literal (stripped) comparison of the raw
labels for the reserved id A0, four-state (normalized) comparison otherwise. -/
def verdictOf (mid : String) (m : SysRow) (prow : PreRow) : String :=
  if mid = "A0" then (if pyStrip prow.ori = pyStrip m.compliance then "一致" else "不一致")
  else (if m.compliance = prow.eqLevel then "一致" else "不一致")

/-- The forward-sweep output row for one precheck row. -/
def forwardRow (sysDf : List SysRow) (prow : PreRow) : CmpRow :=
  match matchOf sysDf prow with
  | some (mid, m) =>
    { cat := m.cat, hao := mid, itemSys := m.item, oriPre := prow.ori,
      eqPre := prow.eqLevel, sysRes := m.compliance, verdict := verdictOf mid m prow,
      explanation := if verdictOf mid m prow = "不一致" then m.recommendation else "",
      note := prow.note }
  | none =>
    { cat := "",
      hao := if pyStrip prow.hao = "" then "（未識別）" else pyStrip prow.hao,
      itemSys := prow.item, oriPre := prow.ori,
      eqPre := if prow.eqLevel = "" then "未提及" else prow.eqLevel,
      sysRes := "（無對應）", verdict := "預審多出",
      explanation := "此預審項目在系統檢核清單中無直接對應；請人工確認是否需納入清單或為表述差異。",
      note := prow.note }

/-- `pre_ids`: the set of stripped nonempty precheck 編號 values. -/
def preIds (preDf : List PreRow) : List String :=
  (preDf.map (fun r => pyStrip r.hao)).filter (fun x => x ≠ "")

/-- The reverse sweep: one 系統多出 row per system row whose stripped
nonempty 編號 is absent from `pre_ids`. -/
def reverseRows (sysDf : List SysRow) (preDf : List PreRow) : List CmpRow :=
  sysDf.filterMap (fun s =>
    if pyStrip s.hao ≠ "" ∧ ¬ (preIds preDf).contains (pyStrip s.hao) then some
      { cat := s.cat, hao := s.hao, itemSys := s.item, oriPre := "",
        eqPre := "未提及", sysRes := s.compliance, verdict := "系統多出",
        explanation := "預審未涵蓋此系統檢核項目，建議補列或於會審時提示承辦注意。",
        note := "" }
    else none)

/-- `build_compare_table(sys_df, pre_df)`: forward sweep over the precheck
rows, reverse sweep over the system rows, then the canonical sort. -/
def build_compare_table (sysDf : List SysRow) (preDf : List PreRow) : List CmpRow :=
  sortByCanonical CmpRow.hao
    (preDf.map (forwardRow sysDf) ++ reverseRows sysDf preDf)

/-! ## Result aggregation (batch path of `main`, sys.py lines 634-659) -/

/-- A checklist item of `build_rfp_checklist`. -/
structure ChkItem where
  category : String
  id : String
  item : String
deriving DecidableEq, Repr

/-- A raw judgment-pass response record; `none` fields model absent keys. -/
structure RawResp where
  id : Option String
  category : Option String
  item : Option String
  compliance : Option String
  evidence : Option (List Ev)
  recommendation : Option String
deriving DecidableEq, Repr

/-- `id_to_meta[rid]` (dict comprehension: the last item with that id wins). -/
def idToMeta (items : List ChkItem) (rid : String) : ChkItem :=
  ((items.filter (fun it => it.id == rid)).getLast?).getD ⟨"", "", ""⟩

/-- `allowed_ids = {it['id'] for it in items}`. -/
def aggAllowed (items : List ChkItem) : List String := items.map ChkItem.id

/-- The `normalized` list of the aggregation loop: responses whose id belongs
to the batch, with absent fields filled from the registry item (category,
item text) or with the loop's defaults. -/
def aggNormalized (items : List ChkItem) (arr : List RawResp) : List CompRec :=
  arr.filterMap (fun d =>
    match d.id with
    | some rid =>
      if (aggAllowed items).contains rid then
        some { id := rid, category := d.category.getD (idToMeta items rid).category,
               item := d.item.getD (idToMeta items rid).item,
               compliance := d.compliance.getD "",
               evidence := d.evidence.getD [],
               recommendation := d.recommendation.getD "" }
      else none
    | none => none)

/-- `returned_ids`. -/
def aggReturned (items : List ChkItem) (arr : List RawResp) : List String :=
  (aggNormalized items arr).map (fun x => x.id)

/-- The per-batch aggregation loop of `main`: keep responses whose id is in
the batch (filling absent fields from the registry item), then append a
未提及 default for every batch item with no response record. -/
def aggregate_batch (items : List ChkItem) (arr : List RawResp) : List CompRec :=
  aggNormalized items arr ++
    (items.filter (fun it => ¬ (aggReturned items arr).contains it.id)).map (fun it =>
      { id := it.id, category := it.category, item := it.item,
        compliance := "未提及", evidence := [], recommendation := "" })

/-! ## Precheck parsing output → dataframe (sys.py lines 336-387) -/

/-- One row of `parse_precheck_json`'s output. -/
structure PreRaw where
  raw_id : String
  item : String
  status : String
  biz_ref_note : String
  section_title : String
  main_no : Option Int
  sub_no : Option Int
  std_id : String
  evidence : List Ev
deriving DecidableEq, Repr

/-- `precheck_rows_to_df(rows)`: 編號 is the extractor's `std_id` verbatim
when nonempty, else `compute_std_id`; the hidden equivalence level is the
normalized 預審判定. -/
def precheck_rows_to_df (rows : List PreRaw) : List PreRow :=
  rows.map (fun r =>
    { hao := if r.std_id = "" then compute_std_id r.raw_id r.item else r.std_id,
      item := r.item, ori := r.status, note := r.biz_ref_note,
      eqLevel := normalize_status_equiv (some r.status),
      rawId := r.raw_id, sect := r.section_title })

/-! ## General lemmas about the embedding -/

theorem insertStable_perm {α : Type} (le : α → α → Bool) (x : α) (l : List α) :
    List.Perm (insertStable le x l) (x :: l) := by
  induction l with
  | nil => simp [insertStable]
  | cons y ys ih =>
    simp only [insertStable]
    split
    · exact ((ih.cons y).trans (List.Perm.swap x y ys))
    · exact List.Perm.refl _

theorem stableSort_perm {α : Type} (le : α → α → Bool) (l : List α) :
    List.Perm (stableSort le l) l := by
  suffices h : ∀ (l acc : List α), List.Perm (l.foldl (fun acc x => insertStable le x acc) acc) (acc ++ l) by
    simpa using h l []
  intro l
  induction l with
  | nil => intro acc; simp
  | cons x t ih =>
    intro acc
    refine List.Perm.trans (ih (insertStable le x acc)) ?_
    refine List.Perm.trans ((insertStable_perm le x acc).append_right t) ?_
    exact List.perm_middle.symm

theorem sortByCanonical_perm {α : Type} (hao : α → String) (l : List α) :
    List.Perm (sortByCanonical hao l) l :=
  stableSort_perm _ l

theorem sortByCanonical_countP {α : Type} (hao : α → String) (p : α → Bool) (l : List α) :
    (sortByCanonical hao l).countP p = l.countP p :=
  (sortByCanonical_perm hao l).countP_eq p

theorem countP_filterMap {α β : Type} (f : α → Option β) (p : β → Bool) (l : List α) :
    (l.filterMap f).countP p = l.countP (fun a => ((f a).map p).getD false) := by
  induction l with
  | nil => rfl
  | cons a t ih =>
    cases hfa : f a with
    | none => simp [List.filterMap_cons, hfa, List.countP_cons, ih]
    | some b => simp [List.filterMap_cons, hfa, List.countP_cons, ih]

theorem length_filterMap_eq_countP {α β : Type} (f : α → Option β) (l : List α) :
    (l.filterMap f).length = l.countP (fun a => (f a).isSome) := by
  induction l with
  | nil => rfl
  | cons a t ih =>
    cases hfa : f a with
    | none => simp [List.filterMap_cons, hfa, List.countP_cons, ih]
    | some b => simp [List.filterMap_cons, hfa, List.countP_cons, ih]

theorem not_space_of_digit {c : Char} (h : c.isDigit = true) : isPySpace c = false := by
  cases hsp : isPySpace c with
  | false => rfl
  | true =>
    exfalso
    simp only [isPySpace, Bool.or_eq_true, beq_iff_eq] at hsp
    rcases hsp with ((((h1 | h1) | h1) | h1) | h1) | h1 <;> subst h1 <;> exact absurd h (by decide)

theorem not_space_of_AF {c : Char} (h : ('A' ≤ c && c ≤ 'F') = true) : isPySpace c = false := by
  cases hsp : isPySpace c with
  | false => rfl
  | true =>
    exfalso
    simp only [isPySpace, Bool.or_eq_true, beq_iff_eq] at hsp
    rcases hsp with ((((h1 | h1) | h1) | h1) | h1) | h1 <;> subst h1 <;> exact absurd h (by decide)

theorem dropWhile_space_eq_self {l : List Char} (h : ∀ c ∈ l, isPySpace c = false) :
    l.dropWhile isPySpace = l := by
  cases l with
  | nil => rfl
  | cons a t => simp [List.dropWhile_cons, h a (by simp)]

theorem pyStripL_eq_self {l : List Char} (h : ∀ c ∈ l, isPySpace c = false) : pyStripL l = l := by
  unfold pyStripL
  rw [dropWhile_space_eq_self h,
      dropWhile_space_eq_self (fun c hc => h c (List.mem_reverse.mp hc)),
      List.reverse_reverse]

theorem pyStrip_eq_self {s : String} (h : ∀ c ∈ s.data, isPySpace c = false) : pyStrip s = s := by
  unfold pyStrip
  rw [pyStripL_eq_self h]

theorem stdIdMatchL_no_space {l : List Char} (h : stdIdMatchL l = true) :
    ∀ c ∈ l, isPySpace c = false := by
  intro c hc
  cases l with
  | nil => simp at hc
  | cons c0 rest =>
    rw [stdIdMatchL, Bool.and_eq_true] at h
    obtain ⟨hL, htail⟩ := h
    rw [stdTail, Bool.and_eq_true] at htail
    obtain ⟨-, hrest⟩ := htail
    rcases List.mem_cons.mp hc with rfl | hcr
    · exact not_space_of_AF hL
    · have hsplit : rest.takeWhile Char.isDigit ++ rest.dropWhile Char.isDigit = rest :=
        List.takeWhile_append_dropWhile Char.isDigit rest
      rw [← hsplit] at hcr
      rcases List.mem_append.mp hcr with htk | hdr
      · exact not_space_of_digit (List.mem_takeWhile_imp htk)
      · rw [Bool.or_eq_true] at hrest
        rcases hrest with hemp | hfrac
        · rw [List.isEmpty_iff.mp hemp] at hdr
          simp at hdr
        · cases hd : rest.dropWhile Char.isDigit with
          | nil => rw [hd] at hdr; simp at hdr
          | cons d r2 =>
            rw [hd] at hdr hfrac
            cases hdot : (d == '.') with
            | false =>
              exfalso
              rw [stdFrac.eq_def] at hfrac
              revert hfrac
              split
              · next heq => rw [(List.cons.injEq ..).mp heq |>.1] at hdot; simp at hdot
              · intro hfrac; exact absurd hfrac (by simp)
            | true =>
              obtain rfl : d = '.' := by simpa using hdot
              rw [stdFrac, Bool.and_eq_true] at hfrac
              rcases List.mem_cons.mp hdr with rfl | hr2
              · decide
              · exact not_space_of_digit (by simpa using List.all_eq_true.mp hfrac.2 c hr2)

theorem takeWhile_append_of_all {p : Char → Bool} {ds : List Char} (t : List Char)
    (h : ∀ c ∈ ds, p c = true) : (ds ++ t).takeWhile p = ds ++ t.takeWhile p := by
  induction ds with
  | nil => rfl
  | cons a d ih =>
    simp only [List.cons_append, List.takeWhile_cons, h a (by simp), if_true]
    rw [ih (fun c hc => h c (by simp [hc]))]

theorem dropWhile_append_of_all {p : Char → Bool} {ds : List Char} (t : List Char)
    (h : ∀ c ∈ ds, p c = true) : (ds ++ t).dropWhile p = t.dropWhile p := by
  induction ds with
  | nil => rfl
  | cons a d ih =>
    simp only [List.cons_append, List.dropWhile_cons, h a (by simp)]
    exact ih (fun c hc => h c (by simp [hc]))

theorem stdIdMatchL_build {L : Char} {ds : List Char} (hL : ('A' ≤ L && L ≤ 'F') = true)
    (hne : ds ≠ []) (hdig : ∀ c ∈ ds, c.isDigit = true) (tail : List Char)
    (htail : tail = [] ∨ ∃ fs, tail = '.' :: fs ∧ fs ≠ [] ∧ ∀ c ∈ fs, c.isDigit = true) :
    stdIdMatchL (L :: (ds ++ tail)) = true := by
  rw [stdIdMatchL, Bool.and_eq_true]
  refine ⟨hL, ?_⟩
  rw [stdTail, Bool.and_eq_true]
  rcases htail with rfl | ⟨fs, rfl, hfs, hfsd⟩
  · rw [takeWhile_append_of_all [] hdig, dropWhile_append_of_all [] hdig]
    constructor
    · simp [List.isEmpty_iff, hne]
    · simp
  · have hdot : ('.' :: fs).takeWhile Char.isDigit = [] := by
      simp [List.takeWhile_cons]
    have hdot2 : ('.' :: fs).dropWhile Char.isDigit = '.' :: fs := by
      simp [List.dropWhile_cons]
    rw [takeWhile_append_of_all _ hdig, dropWhile_append_of_all _ hdig, hdot, hdot2]
    constructor
    · simp [List.isEmpty_iff, hne]
    · rw [Bool.or_eq_true]
      right
      rw [stdFrac, Bool.and_eq_true]
      exact ⟨by simp [List.isEmpty_iff, hfs], by simp [List.all_eq_true]; exact hfsd⟩

theorem findHyphenNum_spec {l ds : List Char} (h : findHyphenNum l = some ds) :
    ds ≠ [] ∧ ∀ c ∈ ds, c.isDigit = true := by
  induction l with
  | nil => simp [findHyphenNum] at h
  | cons c rest ih =>
    rw [findHyphenNum] at h
    by_cases hc : (c == '-') = true
    · rw [if_pos hc] at h
      by_cases hemp : (((rest.dropWhile isPySpace).takeWhile Char.isDigit).isEmpty) = true
      · rw [if_pos hemp] at h
        exact ih h
      · rw [if_neg hemp] at h
        obtain rfl := (Option.some.injEq _ _).mp h
        refine ⟨fun hnil => hemp (by rw [hnil]; rfl), ?_⟩
        intro a ha
        exact List.mem_takeWhile_imp ha
    · rw [if_neg hc] at h
      exact ih h

theorem findNumDelimF_spec {fuel : Nat} :
    ∀ {l ds : List Char}, findNumDelimF fuel l = some ds →
      ds ≠ [] ∧ ∀ c ∈ ds, c.isDigit = true := by
  induction fuel with
  | zero => intro l ds h; simp [findNumDelimF] at h
  | succ f ih =>
    intro l ds h
    cases l with
    | nil => simp [findNumDelimF] at h
    | cons c rest =>
      rw [findNumDelimF] at h
      by_cases hc : c.isDigit = true
      · rw [if_pos hc] at h
        revert h
        split
        · rename_i d tl heq
          intro h
          by_cases hd : isNumDelim d = true
          · rw [if_pos hd] at h
            obtain rfl := (Option.some.injEq _ _).mp h
            refine ⟨by simp, ?_⟩
            intro a ha
            rcases List.mem_cons.mp ha with rfl | ha2
            · exact hc
            · exact List.mem_takeWhile_imp ha2
          · rw [if_neg hd] at h
            exact ih h
        · intro h; exact absurd h (by simp)
      · rw [if_neg hc] at h
        exact ih h

theorem findNumDelim_spec {l ds : List Char} (h : findNumDelim l = some ds) :
    ds ≠ [] ∧ ∀ c ∈ ds, c.isDigit = true :=
  findNumDelimF_spec h

theorem findParenNum_spec {l ds : List Char} (h : findParenNum l = some ds) :
    ds ≠ [] ∧ ∀ c ∈ ds, c.isDigit = true := by
  induction l with
  | nil => simp [findParenNum] at h
  | cons c rest ih =>
    rw [findParenNum] at h
    by_cases hc : (c == '(') = true
    · rw [if_pos hc] at h
      revert h
      split
      · intro h
        by_cases hemp : ((rest.takeWhile Char.isDigit).isEmpty) = true
        · rw [if_pos hemp] at h
          exact ih h
        · rw [if_neg hemp] at h
          obtain rfl := (Option.some.injEq _ _).mp h
          refine ⟨fun hnil => hemp (by rw [hnil]; rfl), ?_⟩
          intro a ha
          exact List.mem_takeWhile_imp ha
      · intro h; exact ih h
    · rw [if_neg hc] at h
      exact ih h

theorem section_letter_AF {p : String × Char} (h : p ∈ SECTION_TO_LETTER) :
    ('A' ≤ p.2 && p.2 ≤ 'F') = true := by
  simp only [SECTION_TO_LETTER, List.mem_cons, List.mem_singleton] at h
  rcases h with rfl | rfl | rfl | rfl | rfl | h
  · decide
  · decide
  · decide
  · decide
  · decide
  · simp at h; rw [h]; decide

theorem roman_letter_AF {p : String × Char} (h : p ∈ ROMAN_TO_LETTER) :
    ('A' ≤ p.2 && p.2 ≤ 'F') = true := by
  simp only [ROMAN_TO_LETTER, List.mem_cons, List.mem_singleton] at h
  rcases h with rfl | rfl | rfl | rfl | rfl | h
  · decide
  · decide
  · decide
  · decide
  · decide
  · simp at h; rw [h]; decide

theorem secLetterOf_AF {raw item : String} {L : Char} (h : secLetterOf raw item = some L) :
    ('A' ≤ L && L ≤ 'F') = true := by
  rw [secLetterOf] at h
  revert h
  cases hsec : SECTION_TO_LETTER.find? (fun p => isSubstr p.1 (srcOf raw item)) with
  | some p =>
    intro h
    obtain rfl : p.2 = L := by simpa using h
    exact section_letter_AF (List.mem_of_find?_eq_some hsec)
  | none =>
    cases hrom : ROMAN_TO_LETTER.find? (fun p =>
        isSubstr (p.1 ++ "、") (srcOf raw item) || isSubstr (p.1 ++ " ") (srcOf raw item)) with
    | some p =>
      intro h
      obtain rfl : p.2 = L := by simpa using h
      exact roman_letter_AF (List.mem_of_find?_eq_some hrom)
    | none => intro h; simp at h

theorem mainNumOf_spec {raw item : String} {ds : List Char} (h : mainNumOf raw item = some ds) :
    ds ≠ [] ∧ ∀ c ∈ ds, c.isDigit = true := by
  rw [mainNumOf] at h
  revert h
  cases hhyp : findHyphenNum raw.data with
  | some ds0 =>
    intro h
    obtain rfl : ds0 = ds := by simpa using h
    exact findHyphenNum_spec hhyp
  | none => exact fun h => findNumDelim_spec h

theorem compute_std_id_matches {raw item : String} (h : compute_std_id raw item ≠ "") :
    stdIdMatch (compute_std_id raw item) = true := by
  revert h
  rw [compute_std_id]
  by_cases hm : stdIdMatch (pyStrip raw) = true
  · rw [if_pos hm]
    exact fun _ => hm
  · rw [if_neg hm]
    cases hsec : secLetterOf raw item with
    | none => intro hne; exact absurd rfl hne
    | some L =>
      cases hnum : mainNumOf raw item with
      | none => intro hne; exact absurd rfl hne
      | some ds =>
        intro _
        obtain ⟨hne, hdig⟩ := mainNumOf_spec hnum
        have hL := secLetterOf_AF hsec
        show stdIdMatchL _ = true
        cases hpar : findParenNum (srcOf raw item).data with
        | none =>
          exact stdIdMatchL_build hL hne hdig [] (Or.inl rfl)
        | some fs =>
          obtain ⟨hfne, hfd⟩ := findParenNum_spec hpar
          exact stdIdMatchL_build hL hne hdig ('.' :: fs) (Or.inr ⟨fs, rfl, hfne, hfd⟩)

theorem pyStrip_of_stdIdMatch {s : String} (h : stdIdMatch s = true) : pyStrip s = s :=
  pyStrip_eq_self (stdIdMatchL_no_space h)

/-! ## Claim theorems -/

/-- C4 counterexample: with an empty raw id and item text 現況說明 1 (a section
title plus a bare number, the spec's end-to-end example), `compute_std_id`
returns the empty string, not B1 — the fallback requires the number to be
followed by one of the delimiters 、 . ． ), so a bare trailing integer is not
picked up. -/
theorem compute_std_id_fallback_cex : compute_std_id "" "現況說明 1" = "" := by decide

/-- C4 (amended): the major number is taken from a hyphen-number in the raw id
when present, and otherwise from the first integer of the combined text that is
followed (after optional whitespace) by one of the enumeration delimiters
、 . ． ); a bare number with no such delimiter yields no canonicalization.
In particular 現況說明-1.(2) gives B1.2, 現況說明 1、xxx gives B1, the leftmost
delimited number wins (現況說明 2、與 3、 gives B2), a hyphen number beats a
delimited text number (raw 現況說明-3 with item 其他 5、 gives B3), and a bare
現況說明 9 gives the empty string. -/
theorem compute_std_id_fallback_amended :
    compute_std_id "現況說明-1.(2)" "" = "B1.2"
    ∧ compute_std_id "" "現況說明 1、xxx" = "B1"
    ∧ compute_std_id "" "現況說明 2、與 3、" = "B2"
    ∧ compute_std_id "現況說明-3" "其他 5、" = "B3"
    ∧ compute_std_id "" "現況說明 9" = "" := by
  refine ⟨by decide, by decide, by decide, by decide, by decide⟩

/-- C8: `normalize_status_equiv` is total with conservative default: for every
input (including `None` and whitespace-only strings) the result is one of the
three labels 符合 / 不適用 / 未提及; whitespace-only input gives 未提及; the
result is 符合 or 不適用 exactly for the fixed synonym tables (checked after
whitespace removal and lowercasing), so unrecognized text is never mapped to
符合. -/
theorem normalize_status_equiv_total (s : Option String) :
    (normalize_status_equiv s = "符合" ∨ normalize_status_equiv s = "不適用" ∨
      normalize_status_equiv s = "未提及")
    ∧ (∀ str, s = some str → str.data.all isPySpace = true →
        normalize_status_equiv s = "未提及")
    ∧ (normalize_status_equiv s = "符合" ↔ ∃ str, s = some str ∧
        (statusClean str = "符合" ∨ statusClean str = "ok" ∨
         statusClean str = "pass" ∨ statusClean str = "通過"))
    ∧ (normalize_status_equiv s = "不適用" ↔ ∃ str, s = some str ∧
        (statusClean str = "不適用" ∨ statusClean str = "na" ∨
         statusClean str = "n/a")) := by
  cases s with
  | none =>
    refine ⟨Or.inr (Or.inr rfl), ?_, ?_, ?_⟩
    · intro str h
      exact absurd h (by simp)
    · constructor
      · intro h; exact absurd h (by decide)
      · rintro ⟨str, h, -⟩; exact absurd h (by simp)
    · constructor
      · intro h; exact absurd h (by decide)
      · rintro ⟨str, h, -⟩; exact absurd h (by simp)
  | some str =>
    have hclean : str.data.all isPySpace = true → statusClean str = "" := by
      intro hsp
      have hnil : str.data.filter (fun c => !isPySpace c) = [] :=
        List.filter_eq_nil_iff.mpr (fun a ha => by simp [List.all_eq_true.mp hsp a ha])
      simp [statusClean, hnil]
    refine ⟨?_, ?_, ?_, ?_⟩
    · simp only [normalize_status_equiv]
      split_ifs with h0 h1 h2
      · exact Or.inr (Or.inr rfl)
      · exact Or.inl rfl
      · exact Or.inr (Or.inl rfl)
      · exact Or.inr (Or.inr rfl)
    · intro str2 heq hsp
      obtain rfl : str = str2 := by simpa using heq
      simp only [normalize_status_equiv]
      rw [if_pos (hclean hsp)]
    · constructor
      · intro h
        simp only [normalize_status_equiv] at h
        split_ifs at h with h0 h1 h2
        · exact absurd h (by decide)
        · exact ⟨str, rfl, h1⟩
        · exact absurd h (by decide)
        · exact absurd h (by decide)
      · rintro ⟨str2, heq, hc⟩
        obtain rfl : str = str2 := by simpa using heq
        simp only [normalize_status_equiv]
        have h0 : ¬ statusClean str = "" := by
          intro h0
          rcases hc with h | h | h | h <;> rw [h0] at h <;> exact absurd h (by decide)
        rw [if_neg h0, if_pos hc]
    · constructor
      · intro h
        simp only [normalize_status_equiv] at h
        split_ifs at h with h0 h1 h2
        · exact absurd h (by decide)
        · exact absurd h (by decide)
        · exact ⟨str, rfl, h2⟩
        · exact absurd h (by decide)
      · rintro ⟨str2, heq, hc⟩
        obtain rfl : str = str2 := by simpa using heq
        simp only [normalize_status_equiv]
        have h0 : ¬ statusClean str = "" := by
          intro h0
          rcases hc with h | h | h <;> rw [h0] at h <;> exact absurd h (by decide)
        have h1 : ¬ (statusClean str = "符合" ∨ statusClean str = "ok" ∨
            statusClean str = "pass" ∨ statusClean str = "通過") := by
          intro h1
          rcases h1 with ha | ha | ha | ha <;> rcases hc with hb | hb | hb <;>
            rw [ha] at hb <;> exact absurd hb (by decide)
        rw [if_neg h0, if_neg h1, if_pos hc]

/-- Closed instance of C8: a whitespace-only label normalizes to 未提及. -/
theorem normalize_status_equiv_total_witness :
    normalize_status_equiv (some " \t ") = "未提及" :=
  (normalize_status_equiv_total (some " \t ")).2.1 " \t " rfl (by decide)

/-- C9: canonicalization is a pass-through on ids already matching the
canonical pattern: the stripped raw id is returned when it matches after
whitespace normalization (so an id that matches literally is returned
unchanged), and canonicalization is idempotent whenever it succeeds: a
nonempty result, fed back in, is returned unchanged. -/
theorem compute_std_id_passthrough_idem :
    (∀ raw item, stdIdMatch (pyStrip raw) = true → compute_std_id raw item = pyStrip raw)
    ∧ (∀ raw item, stdIdMatch raw = true → compute_std_id raw item = raw)
    ∧ (∀ raw item, compute_std_id raw item ≠ "" →
        compute_std_id (compute_std_id raw item) item = compute_std_id raw item) := by
  refine ⟨?_, ?_, ?_⟩
  · intro raw item h
    rw [compute_std_id, if_pos h]
  · intro raw item h
    have hs := pyStrip_of_stdIdMatch h
    rw [compute_std_id, hs, if_pos h]
  · intro raw item h
    have hm := compute_std_id_matches h
    have hs := pyStrip_of_stdIdMatch hm
    rw [compute_std_id, hs, if_pos hm]

/-- Closed instance of C9 at concrete inputs. -/
theorem compute_std_id_passthrough_idem_witness :
    compute_std_id " A1 " "x" = pyStrip " A1 "
    ∧ compute_std_id "A1" "x" = "A1"
    ∧ compute_std_id (compute_std_id " A2.3 " "y") "y" = compute_std_id " A2.3 " "y" :=
  ⟨compute_std_id_passthrough_idem.1 " A1 " "x" (by decide),
   compute_std_id_passthrough_idem.2.1 "A1" "x" (by decide),
   compute_std_id_passthrough_idem.2.2 " A2.3 " "y" (by decide)⟩

/-- C10: `precheck_rows_to_df` adopts the extraction's `std_id` verbatim as the
row's 編號 whenever nonempty — without validating it against the canonical
pattern — and only calls `compute_std_id` when it is empty; hence a nonempty
編號 need not match `[A-F]\d+(\.\d+)?`. -/
theorem precheck_std_id_precedence :
    (∀ rows : List PreRaw, (precheck_rows_to_df rows).map PreRow.hao
        = rows.map (fun r => if r.std_id = "" then compute_std_id r.raw_id r.item else r.std_id))
    ∧ (∀ r : PreRaw, r.std_id ≠ "" → (precheck_rows_to_df [r]).map PreRow.hao = [r.std_id])
    ∧ ((precheck_rows_to_df [⟨"rawX", "itemX", "", "", "", none, none, "XYZ", []⟩]).map PreRow.hao
          = ["XYZ"]
        ∧ stdIdMatch "XYZ" = false) := by
  refine ⟨?_, ?_, by decide, by decide⟩
  · intro rows
    simp only [precheck_rows_to_df, List.map_map]
    rfl
  · intro r h
    simp [precheck_rows_to_df, if_neg h]

/-- Closed instance of C10: a non-pattern `std_id` flows through verbatim. -/
theorem precheck_std_id_precedence_witness :
    (precheck_rows_to_df [⟨"raw1", "item1", "符合", "", "", none, none, "Q9", []⟩]).map
        PreRow.hao = ["Q9"] :=
  precheck_std_id_precedence.2.1 ⟨"raw1", "item1", "符合", "", "", none, none, "Q9", []⟩
    (by decide)

theorem countP_congr_on {α : Type} {p q : α → Bool} {l : List α}
    (h : ∀ a ∈ l, p a = q a) : l.countP p = l.countP q := by
  induction l with
  | nil => rfl
  | cons a t ih =>
    rw [List.countP_cons, List.countP_cons, h a (by simp),
        ih (fun b hb => h b (by simp [hb]))]

theorem ratioPair_den_pos (a b : String) : 0 < (ratioPair a b).2 := by
  by_cases h : a.length + b.length = 0
  · rw [ratioPair, if_pos h]
    decide
  · rw [ratioPair, if_neg h]
    exact Nat.pos_of_ne_zero h

theorem fuzzyStep_den_pos {q : String} {best : String × Nat × Nat}
    (h : 0 < best.2.2) (cand : String) : 0 < (fuzzyStep q best cand).2.2 := by
  rw [fuzzyStep]
  split
  · exact ratioPair_den_pos q cand
  · exact h

theorem fuzzy_match_den_pos (l : List String) (q : String) : 0 < (fuzzy_match l q).2.2 := by
  suffices h : ∀ (l : List String) (acc : String × Nat × Nat), 0 < acc.2.2 →
      0 < (l.foldl (fuzzyStep q) acc).2.2 from h l ("", 0, 1) (by decide)
  intro l
  induction l with
  | nil => exact fun acc h => h
  | cons c t ih => exact fun acc h => ih _ (fuzzyStep_den_pos h c)

theorem fuzzy_match_mem {l : List String} {q : String}
    (h : 0 < (fuzzy_match l q).2.1) : (fuzzy_match l q).1 ∈ l := by
  suffices hgen : ∀ (l : List String) (acc : String × Nat × Nat),
      (l.foldl (fuzzyStep q) acc) = acc ∨ (l.foldl (fuzzyStep q) acc).1 ∈ l by
    rcases hgen l ("", 0, 1) with heq | hmem
    · exfalso
      have h0 : fuzzy_match l q = ("", 0, 1) := heq
      rw [h0] at h
      simp at h
    · exact hmem
  intro l
  induction l with
  | nil => exact fun acc => Or.inl rfl
  | cons c t ih =>
    intro acc
    rw [List.foldl_cons]
    rcases ih (fuzzyStep q acc c) with heq | hmem
    · rw [heq]
      rw [fuzzyStep]
      split
      · exact Or.inr (by simp)
      · exact Or.inl rfl
    · exact Or.inr (List.mem_cons_of_mem c hmem)

theorem ratAccept_iff {r : Nat × Nat} (hd : 0 < r.2) :
    ratAccept r = true ↔ (17 : ℚ)/20 ≤ (r.1 : ℚ)/(r.2 : ℚ) := by
  rw [ratAccept, decide_eq_true_eq,
      div_le_div_iff₀ (by norm_num : (0:ℚ) < 20) (by exact_mod_cast hd)]
  constructor
  · intro h
    have h2 : ((17 * r.2 : Nat) : ℚ) ≤ ((20 * r.1 : Nat) : ℚ) := by exact_mod_cast h
    push_cast at h2
    linarith
  · intro h
    have h2 : ((17 * r.2 : Nat) : ℚ) ≤ ((20 * r.1 : Nat) : ℚ) := by push_cast; linarith
    exact_mod_cast h2

theorem verdictOf_ne_extra (mid : String) (m : SysRow) (prow : PreRow) :
    verdictOf mid m prow ≠ "系統多出" ∧ verdictOf mid m prow ≠ "預審多出" := by
  rw [verdictOf]
  split
  · split
    · exact ⟨by decide, by decide⟩
    · exact ⟨by decide, by decide⟩
  · split
    · exact ⟨by decide, by decide⟩
    · exact ⟨by decide, by decide⟩

theorem forwardRow_not_sysExtra (sysDf : List SysRow) (prow : PreRow) :
    ((forwardRow sysDf prow).verdict == "系統多出") = false := by
  rw [forwardRow]
  cases hmo : matchOf sysDf prow with
  | some p =>
    obtain ⟨mid, m⟩ := p
    exact beq_eq_false_iff_ne.mpr (verdictOf_ne_extra mid m prow).1
  | none => rfl

theorem reverseRows_verdict {sysDf : List SysRow} {preDf : List PreRow} :
    ∀ r ∈ reverseRows sysDf preDf, r.verdict = "系統多出" := by
  intro r hr
  rw [reverseRows] at hr
  obtain ⟨s, hs, hsome⟩ := List.mem_filterMap.mp hr
  revert hsome
  split
  · intro hsome
    obtain rfl := (Option.some.injEq _ _).mp hsome
    rfl
  · intro hsome
    exact absurd hsome (by simp)

theorem reverseRows_length (sysDf : List SysRow) (preDf : List PreRow) :
    (reverseRows sysDf preDf).length
      = sysDf.countP (fun s =>
          decide (pyStrip s.hao ≠ "" ∧ ¬ (preIds preDf).contains (pyStrip s.hao))) := by
  rw [reverseRows, length_filterMap_eq_countP]
  refine countP_congr_on ?_
  intro s hs
  split
  · next hcond => simp only [Option.isSome_some]; exact (decide_eq_true hcond).symm
  · next hcond => simp only [Option.isSome_none]; exact (decide_eq_false hcond).symm

/-- C3 counterexample: the canonical sort puts A2.10 BEFORE A2.9, because the
sort key reads the whole first number of the id as one decimal (`2.10` = 2.1 <
2.9), so the claimed pair ordering "A2.10 after A2.9" fails. -/
theorem canonical_sort_cex :
    sortByCanonical (fun s => s) ["A2.9", "A2.10"] = ["A2.10", "A2.9"] := by decide

/-- C3 (amended): the sort shared by `to_dataframe` and `build_compare_table`
orders every pair by the key (first A-F letter rank, first number of the id
read as a decimal value, id string), stably; this is numeric-aware in the
major part — [A2, A10, A1.5, B1] sorts to [A1.5, A2, A10, B1] — but the minor
part is a decimal fraction, so A2.10 (value 2.1) is ordered before A2.9
(value 2.9), not after. -/
theorem canonical_sort_amended :
    (∀ x y : String, sortByCanonical (fun s => s) [x, y]
        = if sortKeyLe x y then [x, y] else [y, x])
    ∧ sortByCanonical (fun s => s) ["A2", "A10", "A1.5", "B1"] = ["A1.5", "A2", "A10", "B1"]
    ∧ sortKeyLe "A2.10" "A2.9" = true ∧ sortKeyLe "A2.9" "A2.10" = false := by
  refine ⟨?_, by decide, by decide, by decide⟩
  intro x y
  rfl

/-- C5: for a matched pair with canonical id A0, `build_compare_table` compares
the raw precheck label literally (stripped, character for character) against
the system compliance value — the four-state equivalence level is ignored —
while any other id compares the normalized level (the raw label is ignored).
The concrete A0 instances 開發建置/開發建置 → 一致 and 系統維運/開發建置 →
不一致 are included. -/
theorem A0_literal_compare :
    (∀ cat it c rec o q n ri se,
      build_compare_table [⟨cat, "A0", it, c, [], rec⟩] [⟨"A0", "pi", o, n, q, ri, se⟩]
        = [⟨cat, "A0", it, o, q, c,
            (if pyStrip o = pyStrip c then "一致" else "不一致"),
            (if (if pyStrip o = pyStrip c then "一致" else "不一致") = "不一致" then rec else ""),
            n⟩])
    ∧ (∀ cat it c rec o q n ri se,
      build_compare_table [⟨cat, "A1", it, c, [], rec⟩] [⟨"A1", "pi", o, n, q, ri, se⟩]
        = [⟨cat, "A1", it, o, q, c,
            (if c = q then "一致" else "不一致"),
            (if (if c = q then "一致" else "不一致") = "不一致" then rec else ""),
            n⟩])
    ∧ (build_compare_table [⟨"A 基本與前案", "A0", "案件性質", "開發建置", [], ""⟩]
          [⟨"A0", "案件性質（多選）", "開發建置", "", "未提及", "", ""⟩]).map CmpRow.verdict
        = ["一致"]
    ∧ (build_compare_table [⟨"A 基本與前案", "A0", "案件性質", "開發建置", [], ""⟩]
          [⟨"A0", "案件性質（多選）", "系統維運", "", "未提及", "", ""⟩]).map CmpRow.verdict
        = ["不一致"] := by
  refine ⟨?_, ?_, by decide, by decide⟩
  · intro cat it c rec o q n ri se
    rfl
  · intro cat it c rec o q n ri se
    rfl

/-- C7 counterexample: the fuzzy query is `pid or pitem` — the raw id is never
consulted.  With empty canonical id, raw id A1 and item text qq against a
system table containing A1, the spec-described query selection would query A1
(an exact hit), but the code queries the item text and emits 預審多出. -/
theorem fuzzy_query_cex :
    fuzzyQuery (pyStrip "") "qq" = "qq"
    ∧ fuzzyQuerySpec "" "A1" "qq" = "A1"
    ∧ (fuzzyQuery (pyStrip "") "qq" == fuzzyQuerySpec "" "A1" "qq") = false
    ∧ (build_compare_table [⟨"A 基本與前案", "A1", "i", "符合", [], ""⟩]
        [⟨"", "qq", "符合", "", "符合", "A1", ""⟩]).countP
        (fun r => r.verdict == "預審多出") = 1 := by
  refine ⟨by decide, by decide, by decide, by decide⟩

/-- C7 (amended): the fuzzy query is the record's canonical 編號 when nonempty
and its item text otherwise; the raw id is never used — the whole comparison
table is invariant under rewriting every row's hidden raw id.  When 編號 is
empty an item text equal to a system id is matched; when 編號 is nonempty but
unknown, the 編號 itself is the query. -/
theorem fuzzy_query_amended :
    (∀ (sysDf : List SysRow) (preDf : List PreRow) (r0 : String),
      build_compare_table sysDf (preDf.map (fun p => { p with rawId := r0 }))
        = build_compare_table sysDf preDf)
    ∧ (build_compare_table [⟨"A 基本與前案", "A1", "i", "符合", [], ""⟩]
        [⟨"", "A1", "符合", "", "符合", "zz", ""⟩]).countP
        (fun r => r.hao == "A1" && r.verdict == "一致") = 1
    ∧ (build_compare_table [⟨"A 基本與前案", "A1.2", "i", "符合", [], ""⟩]
        [⟨"A1.2x", "junk", "符合", "", "符合", "", ""⟩]).countP
        (fun r => r.hao == "A1.2" && r.verdict == "一致") = 1 := by
  refine ⟨?_, by decide, by decide⟩
  intro sysDf preDf r0
  rw [build_compare_table, build_compare_table]
  have h1 : (preDf.map (fun p => { p with rawId := r0 })).map (forwardRow sysDf)
      = preDf.map (forwardRow sysDf) := by
    rw [List.map_map]
    exact List.map_congr_left (fun p _ => rfl)
  have h2 : preIds (preDf.map (fun p => { p with rawId := r0 })) = preIds preDf := by
    rw [preIds, preIds, List.map_map]
    exact congrArg _ (List.map_congr_left (fun p _ => rfl))
  rw [h1, reverseRows, reverseRows, h2]

/-- C1 counterexample: precheck id A2.10 fuzzy-matches system id A2.1 (ratio
8/9 ≥ 0.85), but the reverse sweep tests membership of A2.1 in the precheck
編號 values — not in the set of consumed ids — so the single system record
appears in TWO output rows: a matched 一致 row and a 系統多出 row. -/
theorem reconciliation_coverage_cex :
    (build_compare_table [⟨"A 基本與前案", "A2.1", "x", "符合", [], ""⟩]
        [⟨"A2.10", "y", "符合", "", "符合", "", ""⟩]).countP
        (fun r => r.hao == "A2.1") = 2
    ∧ (build_compare_table [⟨"A 基本與前案", "A2.1", "x", "符合", [], ""⟩]
        [⟨"A2.10", "y", "符合", "", "符合", "", ""⟩]).countP
        (fun r => r.hao == "A2.1" && r.verdict == "系統多出") = 1
    ∧ (build_compare_table [⟨"A 基本與前案", "A2.1", "x", "符合", [], ""⟩]
        [⟨"A2.10", "y", "符合", "", "符合", "", ""⟩]).countP
        (fun r => r.hao == "A2.1" && r.verdict == "一致") = 1 := by
  refine ⟨by decide, by decide, by decide⟩

/-- C1 (amended): `build_compare_table` emits exactly one non-系統多出 row per
precheck record, and exactly one 系統多出 row per system row whose stripped
nonempty 編號 does not occur among the precheck 編號 values.  (A system record
matched only by fuzzy matching has an id absent from the precheck 編號 values,
so it additionally receives a 系統多出 row and appears in two rows.) -/
theorem reconciliation_coverage (sysDf : List SysRow) (preDf : List PreRow) :
    ((build_compare_table sysDf preDf).countP (fun r => r.verdict == "系統多出")
      = sysDf.countP (fun s =>
          decide (pyStrip s.hao ≠ "" ∧ ¬ (preIds preDf).contains (pyStrip s.hao))))
    ∧ ((build_compare_table sysDf preDf).countP (fun r => !(r.verdict == "系統多出"))
      = preDf.length) := by
  constructor
  · rw [build_compare_table, sortByCanonical_countP, List.countP_append]
    have h1 : (preDf.map (forwardRow sysDf)).countP (fun r => r.verdict == "系統多出") = 0 := by
      rw [List.countP_map]
      refine List.countP_eq_zero.mpr ?_
      intro a ha
      simp only [Function.comp_apply]
      rw [forwardRow_not_sysExtra]
      simp
    rw [h1, Nat.zero_add]
    have h2 : (reverseRows sysDf preDf).countP (fun r => r.verdict == "系統多出")
        = (reverseRows sysDf preDf).length := by
      refine List.countP_eq_length.mpr ?_
      intro r hr
      simp [reverseRows_verdict r hr]
    rw [h2, reverseRows_length]
  · rw [build_compare_table, sortByCanonical_countP, List.countP_append]
    have h1 : (preDf.map (forwardRow sysDf)).countP (fun r => !(r.verdict == "系統多出"))
        = preDf.length := by
      rw [List.countP_map]
      refine List.countP_eq_length.mpr ?_
      intro a ha
      simp only [Function.comp_apply]
      rw [forwardRow_not_sysExtra]
      rfl
    have h2 : (reverseRows sysDf preDf).countP (fun r => !(r.verdict == "系統多出")) = 0 := by
      refine List.countP_eq_zero.mpr ?_
      intro r hr
      simp [reverseRows_verdict r hr]
    rw [h1, h2, Nat.add_zero]

/-- C6: in `build_compare_table`'s forward sweep, whenever the exact lookup of
a precheck row fails, the fuzzy fallback is accepted exactly when the best
similarity ratio is at least 0.85: at or above the threshold the row is a
matched row (never 預審多出 and never an exception — the function is total),
strictly below it the row's verdict is 預審多出.  The witness exercises the
boundary: ratio exactly 0.85 is accepted and 0.84 is rejected. -/
theorem fuzzy_threshold (sysDf : List SysRow) (prow : PreRow)
    (h : pyStrip prow.hao = "" ∨ idxLookup (sysIdx sysDf) (pyStrip prow.hao) = none) :
    (((17 : ℚ)/20 ≤
        ((fuzzy_match (sysKeys sysDf) (fuzzyQuery (pyStrip prow.hao) prow.item)).2.1 : ℚ) /
        ((fuzzy_match (sysKeys sysDf) (fuzzyQuery (pyStrip prow.hao) prow.item)).2.2 : ℚ)) →
      (forwardRow sysDf prow).verdict ≠ "預審多出")
    ∧ ((((fuzzy_match (sysKeys sysDf) (fuzzyQuery (pyStrip prow.hao) prow.item)).2.1 : ℚ) /
        ((fuzzy_match (sysKeys sysDf) (fuzzyQuery (pyStrip prow.hao) prow.item)).2.2 : ℚ)
          < 17/20) →
      (forwardRow sysDf prow).verdict = "預審多出") := by
  have hdpos := fuzzy_match_den_pos (sysKeys sysDf) (fuzzyQuery (pyStrip prow.hao) prow.item)
  have hpid : (if pyStrip prow.hao = "" then none
      else idxLookup (sysIdx sysDf) (pyStrip prow.hao)) = (none : Option SysRow) := by
    rcases h with h0 | h0
    · rw [if_pos h0]
    · rw [h0]
      split
      · rfl
      · rfl
  have hmatch : matchOf sysDf prow =
      (if ratAccept (fuzzy_match (sysKeys sysDf)
          (fuzzyQuery (pyStrip prow.hao) prow.item)).2 then
        (idxLookup (sysIdx sysDf)
            (fuzzy_match (sysKeys sysDf) (fuzzyQuery (pyStrip prow.hao) prow.item)).1).map
          (fun m => ((fuzzy_match (sysKeys sysDf)
              (fuzzyQuery (pyStrip prow.hao) prow.item)).1, m))
       else none) := by
    rw [matchOf, hpid]
  constructor
  · intro hge
    have hacc : ratAccept (fuzzy_match (sysKeys sysDf)
        (fuzzyQuery (pyStrip prow.hao) prow.item)).2 = true :=
      (ratAccept_iff hdpos).mpr hge
    have hnum : 0 < (fuzzy_match (sysKeys sysDf)
        (fuzzyQuery (pyStrip prow.hao) prow.item)).2.1 := by
      rw [ratAccept, decide_eq_true_eq] at hacc
      omega
    have hmem := fuzzy_match_mem hnum
    have hlk : (idxLookup (sysIdx sysDf)
        (fuzzy_match (sysKeys sysDf) (fuzzyQuery (pyStrip prow.hao) prow.item)).1).isSome
        = true := by
      obtain ⟨p, hp, hpe⟩ := List.mem_map.mp hmem
      have hfs : (List.find? (fun x => x.1 ==
          (fuzzy_match (sysKeys sysDf) (fuzzyQuery (pyStrip prow.hao) prow.item)).1)
          (sysIdx sysDf)).isSome = true :=
        List.find?_isSome.mpr ⟨p, hp, by simp [hpe]⟩
      obtain ⟨q2, hq2⟩ := Option.isSome_iff_exists.mp hfs
      rw [idxLookup, hq2]
      rfl
    obtain ⟨m, hm⟩ := Option.isSome_iff_exists.mp hlk
    have hmo : matchOf sysDf prow = some
        ((fuzzy_match (sysKeys sysDf) (fuzzyQuery (pyStrip prow.hao) prow.item)).1, m) := by
      rw [hmatch, if_pos hacc, hm]
      rfl
    rw [forwardRow, hmo]
    exact (verdictOf_ne_extra _ m prow).2
  · intro hlt
    have hacc : ¬ ratAccept (fuzzy_match (sysKeys sysDf)
        (fuzzyQuery (pyStrip prow.hao) prow.item)).2 = true := by
      intro hb
      have := (ratAccept_iff hdpos).mp hb
      linarith
    have hmo : matchOf sysDf prow = none := by
      rw [hmatch, if_neg hacc]
    rw [forwardRow, hmo]

/-- Closed boundary instances of C6: a candidate at similarity exactly 0.85
(34/40) is accepted as a match, one at 0.84 (42/50) is rejected as 預審多出. -/
theorem fuzzy_threshold_witness :
    (forwardRow [⟨"", "abcdefghijklmnopqXYZ", "i", "符合", [], ""⟩]
        ⟨"abcdefghijklmnopqUVW", "t", "符合", "", "符合", "", ""⟩).verdict ≠ "預審多出"
    ∧ (forwardRow [⟨"", "abcdefghijklmnopqrstuwxyz", "i", "符合", [], ""⟩]
        ⟨"abcdefghijklmnopqrstuWXYZ", "t", "符合", "", "符合", "", ""⟩).verdict
      = "預審多出" := by
  constructor
  · refine (fuzzy_threshold [⟨"", "abcdefghijklmnopqXYZ", "i", "符合", [], ""⟩]
        ⟨"abcdefghijklmnopqUVW", "t", "符合", "", "符合", "", ""⟩
        (Or.inr (by decide))).1 ?_
    have hr : (fuzzy_match (sysKeys [⟨"", "abcdefghijklmnopqXYZ", "i", "符合", [], ""⟩])
        (fuzzyQuery (pyStrip (PreRow.hao ⟨"abcdefghijklmnopqUVW", "t", "符合", "", "符合", "", ""⟩))
          (PreRow.item ⟨"abcdefghijklmnopqUVW", "t", "符合", "", "符合", "", ""⟩))).2
        = (34, 40) := by decide
    rw [hr]
    norm_num
  · refine (fuzzy_threshold [⟨"", "abcdefghijklmnopqrstuwxyz", "i", "符合", [], ""⟩]
        ⟨"abcdefghijklmnopqrstuWXYZ", "t", "符合", "", "符合", "", ""⟩
        (Or.inr (by decide))).2 ?_
    have hr : (fuzzy_match (sysKeys [⟨"", "abcdefghijklmnopqrstuwxyz", "i", "符合", [], ""⟩])
        (fuzzyQuery (pyStrip (PreRow.hao ⟨"abcdefghijklmnopqrstuWXYZ", "t", "符合", "", "符合", "", ""⟩))
          (PreRow.item ⟨"abcdefghijklmnopqrstuWXYZ", "t", "符合", "", "符合", "", ""⟩))).2
        = (42, 50) := by decide
    rw [hr]
    norm_num

theorem aggNormalized_countP (items : List ChkItem) (arr : List RawResp) (x : String) :
    (aggNormalized items arr).countP (fun r => r.id == x)
      = if (aggAllowed items).contains x then arr.countP (fun d => d.id == some x)
        else 0 := by
  rw [aggNormalized, countP_filterMap]
  by_cases hx : (aggAllowed items).contains x = true
  · rw [if_pos hx]
    refine countP_congr_on ?_
    intro d hd
    cases hdid : d.id with
    | none => simp
    | some rid =>
      dsimp only
      by_cases hrid : (aggAllowed items).contains rid = true
      · rw [if_pos hrid]
        simp
      · rw [if_neg hrid]
        have hne : (rid == x) = false := by
          cases hxx : (rid == x) with
          | false => rfl
          | true =>
            exfalso
            obtain rfl : rid = x := by simpa using hxx
            exact hrid hx
        simp [hne]
  · rw [if_neg hx]
    refine List.countP_eq_zero.mpr ?_
    intro d hd
    cases hdid : d.id with
    | none => simp
    | some rid =>
      dsimp only
      by_cases hrid : (aggAllowed items).contains rid = true
      · rw [if_pos hrid]
        intro hbeq
        obtain rfl : rid = x := by simpa using hbeq
        exact hx hrid
      · rw [if_neg hrid]
        simp

theorem aggReturned_contains_iff (items : List ChkItem) (arr : List RawResp) (x : String) :
    (aggReturned items arr).contains x = true
      ↔ 0 < (aggNormalized items arr).countP (fun r => r.id == x) := by
  rw [aggReturned]
  constructor
  · intro h
    obtain ⟨r, hr, hre⟩ := List.mem_map.mp (List.elem_iff.mp h)
    exact List.countP_pos_iff.mpr ⟨r, hr, by simp [hre]⟩
  · intro h
    obtain ⟨r, hr, hp⟩ := List.countP_pos_iff.mp h
    refine List.elem_iff.mpr (List.mem_map.mpr ⟨r, hr, ?_⟩)
    simpa using hp

theorem aggDefaults_countP (items : List ChkItem) (arr : List RawResp) (x : String) :
    ((items.filter (fun it => ¬ (aggReturned items arr).contains it.id)).map (fun it =>
        ({ id := it.id, category := it.category, item := it.item,
           compliance := "未提及", evidence := [], recommendation := "" } : CompRec))).countP
        (fun r => r.id == x)
      = items.countP (fun it =>
          (it.id == x) && !((aggReturned items arr).contains it.id)) := by
  rw [List.countP_map, List.countP_filter]
  refine countP_congr_on ?_
  intro it hit
  simp [Function.comp]

theorem countP_id_eq_one (items : List ChkItem) (x : String)
    (hnd : (items.map ChkItem.id).Nodup) (hx : (items.map ChkItem.id).contains x = true) :
    items.countP (fun it => it.id == x) = 1 := by
  have h1 : items.countP (fun it => it.id == x) = (items.map ChkItem.id).countP (fun s => s == x) := by
    rw [List.countP_map]
    rfl
  rw [h1]
  have h2 : (items.map ChkItem.id).countP (fun s => s == x) = (items.map ChkItem.id).count x := by
    rw [List.count]
  rw [h2]
  exact List.count_eq_one_of_mem hnd (List.elem_iff.mp hx)

/-- C2 counterexample: the aggregation loop does NOT discard duplicate ids —
both records for A1 are kept, so a one-item batch yields two records; and the
output is response-order first, defaults after, not registry order. -/
theorem aggregate_batch_cex :
    (aggregate_batch [⟨"A 基本與前案", "A1", "i1"⟩]
        [⟨some "A1", none, none, some "符合", none, none⟩,
         ⟨some "A1", none, none, some "不適用", none, none⟩]).length = 2
    ∧ (aggregate_batch [⟨"A 基本與前案", "A1", "i1"⟩, ⟨"B 現況說明", "B1", "i2"⟩]
        [⟨some "B1", none, none, some "符合", none, none⟩]).map CompRec.id = ["B1", "A1"] := by
  refine ⟨by decide, by decide⟩

/-- C2 (amended): with distinct registry ids, the aggregation loop emits, for
each registry id, max(1, number of responses bearing that id) records — all
recognized responses are kept (duplicates included), unrecognized ids yield
nothing, and an id with no response gets exactly one synthesized 未提及
default; ids outside the registry never appear. -/
theorem aggregate_batch_counts (items : List ChkItem) (arr : List RawResp)
    (hnd : (items.map ChkItem.id).Nodup) (x : String) :
    (aggregate_batch items arr).countP (fun r => r.id == x)
      = if (items.map ChkItem.id).contains x
        then max 1 (arr.countP (fun d => d.id == some x)) else 0 := by
  rw [aggregate_batch, List.countP_append, aggNormalized_countP, aggDefaults_countP]
  by_cases hx : (aggAllowed items).contains x = true
  · have hx2 : (items.map ChkItem.id).contains x = true := hx
    rw [if_pos hx, if_pos hx2]
    by_cases hk : 0 < arr.countP (fun d => d.id == some x)
    · have hcontains : (aggReturned items arr).contains x = true := by
        refine (aggReturned_contains_iff items arr x).mpr ?_
        rw [aggNormalized_countP, if_pos hx]
        exact hk
      have hdef : items.countP (fun it =>
          (it.id == x) && !((aggReturned items arr).contains it.id)) = 0 := by
        refine List.countP_eq_zero.mpr ?_
        intro it hit hcon
        rw [Bool.and_eq_true] at hcon
        obtain ⟨h1, h2⟩ := hcon
        obtain heq : it.id = x := by simpa using h1
        rw [heq, hcontains] at h2
        simp at h2
      rw [hdef, Nat.add_zero]
      omega
    · have hk0 : arr.countP (fun d => d.id == some x) = 0 := by omega
      have hcontains : (aggReturned items arr).contains x = false := by
        cases hc : (aggReturned items arr).contains x with
        | false => rfl
        | true =>
          exfalso
          have hpos := (aggReturned_contains_iff items arr x).mp hc
          rw [aggNormalized_countP, if_pos hx, hk0] at hpos
          simp at hpos
      have hdef : items.countP (fun it =>
            (it.id == x) && !((aggReturned items arr).contains it.id))
          = items.countP (fun it => it.id == x) := by
        refine countP_congr_on ?_
        intro it hit
        cases hii : (it.id == x) with
        | false => simp [hii]
        | true =>
          obtain heq : it.id = x := by simpa using hii
          rw [heq, hcontains]
          simp
      rw [hdef, hk0, Nat.zero_add, countP_id_eq_one items x hnd hx2]
      omega
  · have hx2 : ¬ (items.map ChkItem.id).contains x = true := hx
    rw [if_neg hx, if_neg hx2, Nat.zero_add]
    refine List.countP_eq_zero.mpr ?_
    intro it hit hcon
    rw [Bool.and_eq_true] at hcon
    obtain ⟨h1, -⟩ := hcon
    obtain heq : it.id = x := by simpa using h1
    exact hx (List.elem_iff.mpr (List.mem_map.mpr ⟨it, hit, heq⟩))

/-- Closed instance of C2 (amended) at a concrete batch. -/
theorem aggregate_batch_counts_witness :
    (aggregate_batch [⟨"A 基本與前案", "A1", "i1"⟩] ([] : List RawResp)).countP
        (fun r => r.id == "A1")
      = if (([⟨"A 基本與前案", "A1", "i1"⟩] : List ChkItem).map ChkItem.id).contains "A1"
        then max 1 (([] : List RawResp).countP (fun d => d.id == some "A1")) else 0 :=
  aggregate_batch_counts [⟨"A 基本與前案", "A1", "i1"⟩] [] (by decide) "A1"
